import Mathlib

/-!
# tsnet-proxy: a shallow embedding of the service manager, dispatcher,
# health checker and config validation

Definitions are translated from the Go sources:
* `internal/config/config.go` (types file + `Config.Validate`)
* `internal/manager/manager.go` (`Manager`, `Service`, `AddService`,
  `RemoveService`, `GetAllServices`, `createHandler`)
* `internal/health/checker.go` (`Checker.Start`, `runHealthCheck`)

Go `int`/`time.Duration` fields are modelled as `Int` (durations in
nanoseconds, as in the Go source where `30 * 1000000000` is 30s).
Pointers (`*Service`) are modelled as heap addresses (`Nat`) into an
explicit heap, so that sharing between the registry map and copies of it
is visible.
-/

namespace TsnetProxy

/-- `config.HealthCheckConfig`: health check settings. -/
structure HealthCheckConfig where
  enabled : Bool
  path : String
  interval : Int
  timeout : Int
  unhealthyThreshold : Int
deriving Repr, DecidableEq

/-- `config.TLSConfig`: TLS settings for backend connections. -/
structure TLSConfig where
  enabled : Bool
  skipVerify : Bool
deriving Repr, DecidableEq

/-- `config.ServiceConfig`: a single service configuration. -/
structure ServiceConfig where
  name : String
  backend : String
  paths : List String
  stripPrefix : Bool
  healthCheck : HealthCheckConfig
  tls : TLSConfig
deriving Repr, DecidableEq

/-- `config.ManagementUI` configuration. -/
structure ManagementUI where
  enabled : Bool
  hostname : String
  port : Int
deriving Repr, DecidableEq

/-- `config.MetricsConfig` configuration. -/
structure MetricsConfig where
  enabled : Bool
  port : Int
deriving Repr, DecidableEq

/-- `config.Config`: the main configuration structure. -/
structure Config where
  services : List ServiceConfig
  authKey : String
  apiKey : String
  tailnet : String
  stateDir : String
  managementUI : ManagementUI
  metrics : MetricsConfig
deriving Repr, DecidableEq

/-- Go's `strings.HasPrefix`, on the character sequence of the string (Go
compares the leading bytes; on the ASCII data involved here the two views
coincide). -/
def hasPrefix (s pre : String) : Bool :=
  pre.data.isPrefixOf s.data

/-- The three defaulting assignments `Config.Validate` applies to an enabled
health check: interval 30s, timeout 5s, threshold 3 (the Go durations are in
nanoseconds), each only when the field is zero. -/
def fillHealthDefaults (hc : HealthCheckConfig) : HealthCheckConfig :=
  { hc with
    interval := if hc.interval = 0 then 30 * 1000000000 else hc.interval
    timeout := if hc.timeout = 0 then 5 * 1000000000 else hc.timeout
    unhealthyThreshold := if hc.unhealthyThreshold = 0 then 3
      else hc.unhealthyThreshold }

/-- The body of the per-service part of `Config.Validate`'s loop: the checks
and in-place defaulting applied to `c.Services[i]`, given the set of service
names seen at earlier indices. Returns the (possibly defaulted) service or the
first validation error. -/
def validateService (seen : List String) (svc : ServiceConfig) :
    Except String ServiceConfig :=
  if svc.name = "" then .error "name is required"
  else if seen.contains svc.name then .error ("duplicate service name: " ++ svc.name)
  else if svc.backend = "" then .error (svc.name ++ ": backend URL is required")
  else if ¬ (hasPrefix svc.backend "http://" || hasPrefix svc.backend "https://") then
    .error (svc.name ++ ": backend URL must start with http:// or https://")
  else if svc.healthCheck.enabled then
    if svc.healthCheck.path = "" then
      .error (svc.name ++ ": healthCheck.path is required when health checks are enabled")
    else
      .ok { svc with healthCheck := fillHealthDefaults svc.healthCheck }
  else .ok svc

/-- `Config.Validate`'s `for i, svc := range c.Services` loop, carrying the
`serviceNames` set of names seen so far; the first error aborts the loop. -/
def validateServicesLoop : List String → List ServiceConfig →
    Except String (List ServiceConfig)
  | _, [] => .ok []
  | seen, svc :: rest =>
      match validateService seen svc with
      | .error e => .error e
      | .ok svc' =>
          match validateServicesLoop (svc.name :: seen) rest with
          | .error e => .error e
          | .ok rest' => .ok (svc' :: rest')

/-- `Config.Validate`: checks the configuration and fills defaults (the Go
method mutates `c` in place and returns an error; here the mutated config is
returned on success). -/
def Config.validate (c : Config) : Except String Config :=
  if c.authKey = "" then .error "authKey is required"
  else
    match validateServicesLoop [] c.services with
    | .error e => .error e
    | .ok services =>
        .ok { c with
          services := services
          stateDir := if c.stateDir = "" then "/data/tsnet" else c.stateDir
          managementUI :=
            { c.managementUI with
              hostname := if c.managementUI.enabled ∧ c.managementUI.hostname = ""
                then "tsnet-proxy-ui" else c.managementUI.hostname
              port := if c.managementUI.enabled ∧ c.managementUI.port = 0
                then 8080 else c.managementUI.port }
          metrics :=
            { c.metrics with
              port := if c.metrics.enabled ∧ c.metrics.port = 0
                then 9090 else c.metrics.port } }

/-- A single service entry has one of the defects `Config.Validate` rejects
(duplicate names are accounted separately): missing name, missing backend URL,
backend URL not starting with `http://` or `https://`, or health check enabled
with an empty path. -/
def serviceDefect (svc : ServiceConfig) : Prop :=
  svc.name = "" ∨ svc.backend = "" ∨
    (hasPrefix svc.backend "http://" = false ∧ hasPrefix svc.backend "https://" = false) ∨
    (svc.healthCheck.enabled = true ∧ svc.healthCheck.path = "")

instance (svc : ServiceConfig) : Decidable (serviceDefect svc) := by
  unfold serviceDefect; infer_instance

/-- A configuration has one of the defects `Config.Validate` rejects: missing
auth key, a defective service entry, or two services sharing a name. -/
def configDefect (c : Config) : Prop :=
  c.authKey = "" ∨ (∃ svc ∈ c.services, serviceDefect svc) ∨
    ¬ (c.services.map (fun s => s.name)).Nodup

/-- How an accepted service entry relates to the entry `Config.Validate`
stores back: routing fields unchanged, and the health-check durations and
threshold defaulted (interval 30s, timeout 5s, threshold 3, each only when the
field was unset and the health check is enabled). -/
def defaulted (s s' : ServiceConfig) : Prop :=
  s'.name = s.name ∧ s'.backend = s.backend ∧ s'.paths = s.paths ∧
  s'.stripPrefix = s.stripPrefix ∧ s'.tls = s.tls ∧
  s'.healthCheck.enabled = s.healthCheck.enabled ∧
  s'.healthCheck.path = s.healthCheck.path ∧
  (s.healthCheck.enabled = true →
    s'.healthCheck.interval =
      (if s.healthCheck.interval = 0 then 30 * 1000000000 else s.healthCheck.interval) ∧
    s'.healthCheck.timeout =
      (if s.healthCheck.timeout = 0 then 5 * 1000000000 else s.healthCheck.timeout) ∧
    s'.healthCheck.unhealthyThreshold =
      (if s.healthCheck.unhealthyThreshold = 0 then 3
        else s.healthCheck.unhealthyThreshold)) ∧
  (s.healthCheck.enabled = false → s'.healthCheck = s.healthCheck)

/-- `manager.Service`: a running service. The `tsnetServer` and `reverseProxy`
handles carry no routing-relevant state and are modelled by their presence
alone; the mutable part is the atomic `healthy` flag. -/
structure ServiceState where
  config : ServiceConfig
  healthy : Bool
deriving Repr, DecidableEq

/-- `manager.NewService`: creates a Service with `healthy.Store(true)`
("Assume healthy initially"). -/
def NewService (cfg : ServiceConfig) : ServiceState :=
  { config := cfg, healthy := true }

/-- `Service.SetHealthy` applied to the heap object at address `addr`. -/
def setHealthyOn (heap : List ServiceState) (addr : Nat) (b : Bool) :
    List ServiceState :=
  match heap.get? addr with
  | some svc => heap.set addr { svc with healthy := b }
  | none => heap

/-- The state of a `manager.Manager` together with the heap of allocated
`Service` objects (addresses stand for `*Service` pointers) and the set of
running health-check tasks (`runHealthCheck` goroutines: each holds the address
of the service it probes and its private `failureCount`). -/
structure ManagerState where
  heap : List ServiceState
  services : List (String × Nat)
  probers : List (Nat × Int)
deriving Repr, DecidableEq

/-- The `Manager` as `NewManager` returns it, before any service is added. -/
def initialManager : ManagerState :=
  { heap := [], services := [], probers := [] }

/-- Errors `Manager.AddService` can return, in the order its code can produce
them. -/
inductive AddError where
  | duplicateName
  | tsnetStart
  | httpsListen
  | httpListen
  | invalidBackend
deriving Repr, DecidableEq

/-- The error `Manager.RemoveService` returns for an absent name. -/
inductive RemoveError where
  | notFound
deriving Repr, DecidableEq

/-- Externally observable side effects of the manager's operations on the
provisioning collaborators (tsnet server lifecycle, health-check tasks). -/
inductive Effect where
  | tsnetStarted (name : String)
  | tsnetClosed (name : String)
  | deviceDeleted (name : String)
deriving Repr, DecidableEq

/-- Outcomes of the external provisioning calls `AddService` makes, in call
order: `ts.Start()`, `ts.ListenTLS`, `ts.Listen`, `url.Parse(cfg.Backend)`. -/
structure Provisioner where
  startOk : Bool
  listenTLSOk : Bool
  listenOk : Bool
  parseOk : Bool
deriving Repr, DecidableEq

/-- `Manager.AddService`: checks for a duplicate name first, then provisions
(tsnet server, HTTPS and HTTP listeners, backend URL parse) and only on full
success registers the new `Service` in the map. Returns the new manager state,
the error if any, and the provisioning side effects of the call. -/
def AddService (m : ManagerState) (prov : Provisioner) (cfg : ServiceConfig) :
    ManagerState × Option AddError × List Effect :=
  if (m.services.lookup cfg.name).isSome then (m, some .duplicateName, [])
  else if ¬ prov.startOk then (m, some .tsnetStart, [])
  else if ¬ prov.listenTLSOk then
    (m, some .httpsListen, [.tsnetStarted cfg.name, .tsnetClosed cfg.name])
  else if ¬ prov.listenOk then
    (m, some .httpListen, [.tsnetStarted cfg.name, .tsnetClosed cfg.name])
  else if ¬ prov.parseOk then
    (m, some .invalidBackend, [.tsnetStarted cfg.name, .tsnetClosed cfg.name])
  else
    ({ m with heap := m.heap ++ [NewService cfg]
              services := m.services ++ [(cfg.name, m.heap.length)] },
     none, [.tsnetStarted cfg.name])

/-- `Manager.RemoveService`: looks the name up; absent names fail with the
"not found" error and change nothing; otherwise the device is deleted, the
tsnet server closed and the entry deleted from the map. The heap object and
any running health-check task for it are left alone (the Go code only does
`delete(m.services, name)`). -/
def RemoveService (m : ManagerState) (name : String) :
    ManagerState × Option RemoveError × List Effect :=
  match m.services.lookup name with
  | none => (m, some .notFound, [])
  | some _ =>
      ({ m with services := m.services.filter (fun e => e.1 != name) },
       none, [.deviceDeleted name, .tsnetClosed name])

/-- `Manager.GetService`: read-only lookup of the `*Service` pointer. -/
def GetService (m : ManagerState) (name : String) : Option Nat :=
  m.services.lookup name

/-- `Manager.GetAllServices`: returns a copy of the map ("Return a copy to
prevent external modification") — a fresh association list holding the same
`*Service` addresses. -/
def GetAllServices (m : ManagerState) : List (String × Nat) :=
  m.services

/-- The health flag of the registered service `name`, as a reader of the
registry sees it (registry lookup followed by the atomic load). -/
def serviceHealthy (m : ManagerState) (name : String) : Option Bool :=
  (m.services.lookup name).bind (fun a => (m.heap.get? a).map (fun s => s.healthy))

/-- What the dispatcher `createHandler` builds replies with: the health-gate
503, the no-path-matched 404, or a forward of the (possibly rewritten) request
path to the reverse proxy. -/
inductive Response where
  | serviceUnavailable
  | notFound
  | forwarded (path : String)
deriving Repr, DecidableEq

/-- How often the response invoked the forwarding primitive
(`proxy.ServeHTTP`). -/
def proxyCalls : Response → Nat
  | .forwarded _ => 1
  | _ => 0

/-- Go's `strings.TrimPrefix`: returns `s` without the leading `pre` (a drop
of exactly `pre`'s length), or `s` unchanged if `pre` is not a prefix. -/
def trimPrefix (s pre : String) : String :=
  if hasPrefix s pre then { data := s.data.drop pre.data.length } else s

/-- The matching loop of `createHandler`: the first configured path that is a
string prefix (`strings.HasPrefix`) of the request path, in declaration
order. -/
def matchPath : List String → String → Option String
  | [], _ => none
  | p :: rest, path => if hasPrefix path p then some p else matchPath rest path

/-- `Manager.createHandler`: health gate, then path routing (only when the
service configures a non-empty path list: first prefix match wins, 404 on no
match, optional prefix strip with empty results normalized to "/"), then the
forward to the backend. -/
def createHandler (svc : ServiceState) (reqPath : String) : Response :=
  if ¬ svc.healthy then .serviceUnavailable
  else if svc.config.paths.length > 0 then
    match matchPath svc.config.paths reqPath with
    | none => .notFound
    | some p =>
        if svc.config.stripPrefix then
          let stripped := trimPrefix reqPath p
          .forwarded (if stripped = "" then "/" else stripped)
        else .forwarded reqPath
  else .forwarded reqPath

/-- One tick of `Checker.runHealthCheck`'s loop on the task-local
`failureCount` and the service's healthy flag, given whether `performCheck`
succeeded: a failure increments the counter and marks the service unhealthy
once the counter reaches the threshold; a success resets the counter to 0 and
stores `healthy = true`. -/
def healthTick (threshold : Int) (st : Int × Bool) (probeOk : Bool) :
    Int × Bool :=
  if probeOk then (0, true)
  else
    let fc := st.1 + 1
    if threshold ≤ fc then (fc, false) else (fc, st.2)

/-- A run of `runHealthCheck` ticks over a sequence of probe outcomes. -/
def healthRun (threshold : Int) (st : Int × Bool) (probes : List Bool) :
    Int × Bool :=
  probes.foldl (healthTick threshold) st

/-- The addresses `Checker.Start` iterates: every registered service whose
health check is enabled. -/
def enabledAddrs (m : ManagerState) : List Nat :=
  m.services.filterMap (fun e =>
    match m.heap.get? e.2 with
    | some svc => if svc.config.healthCheck.enabled then some e.2 else none
    | none => none)

/-- `Checker.Start`: spawns one `runHealthCheck` task (with `failureCount`
starting at 0) for each currently registered service with health checks
enabled. -/
def checkerStart (m : ManagerState) : ManagerState :=
  { m with probers := m.probers ++ (enabledAddrs m).map (fun a => (a, 0)) }

/-- One ticker firing of the `i`-th running `runHealthCheck` task: the tick
updates the task's private `failureCount` and writes the healthy flag of the
service object the task holds a pointer to. -/
def proberTick (m : ManagerState) (i : Nat) (probeOk : Bool) : ManagerState :=
  match m.probers.get? i with
  | none => m
  | some (addr, fc) =>
      match m.heap.get? addr with
      | none => m
      | some svc =>
          let r := healthTick svc.config.healthCheck.unhealthyThreshold
            (fc, svc.healthy) probeOk
          { m with heap := m.heap.set addr { svc with healthy := r.2 }
                   probers := m.probers.set i (addr, r.1) }

/-- The system's atomic transitions: a manager mutation (`AddService`,
`RemoveService`), the checker starting its probe tasks, or a probe tick of a
running task. These are the only writers of manager state in the program. -/
inductive SysStep : ManagerState → ManagerState → Prop where
  | add (m : ManagerState) (prov : Provisioner) (cfg : ServiceConfig) :
      SysStep m (AddService m prov cfg).1
  | remove (m : ManagerState) (name : String) :
      SysStep m (RemoveService m name).1
  | start (m : ManagerState) : SysStep m (checkerStart m)
  | tick (m : ManagerState) (i : Nat) (probeOk : Bool) :
      SysStep m (proberTick m i probeOk)

/-- Manager states the program can reach from startup. -/
def Reachable (m : ManagerState) : Prop :=
  Relation.ReflTransGen SysStep initialManager m

/-! ## Concrete fixtures for witnesses and counterexamples -/

/-- A disabled health check (the zero value of `HealthCheckConfig`). -/
def noHealth : HealthCheckConfig :=
  { enabled := false, path := "", interval := 0, timeout := 0, unhealthyThreshold := 0 }

/-- An enabled health check with the validated defaults. -/
def hcOn : HealthCheckConfig :=
  { enabled := true, path := "/health", interval := 30000000000,
    timeout := 5000000000, unhealthyThreshold := 3 }

/-- The zero value of `TLSConfig`. -/
def noTLS : TLSConfig :=
  { enabled := false, skipVerify := false }

/-- A healthy service with `paths=["/api"]` and `stripPrefix=true`. -/
def apiSvc : ServiceState :=
  { config :=
      { name := "api", backend := "http://b", paths := ["/api"],
        stripPrefix := true, healthCheck := noHealth, tls := noTLS },
    healthy := true }

/-- A healthy service with `paths=["/ap"]` and `stripPrefix=true`. -/
def apSvc : ServiceState :=
  { config :=
      { name := "ap", backend := "http://b", paths := ["/ap"],
        stripPrefix := true, healthCheck := noHealth, tls := noTLS },
    healthy := true }

/-- A service whose health flag has been stored `false`. -/
def downSvc : ServiceState :=
  { config :=
      { name := "down", backend := "http://b", paths := [],
        stripPrefix := false, healthCheck := hcOn, tls := noTLS },
    healthy := false }

/-- A health-check-enabled service configuration named `web`. -/
def cfgWeb : ServiceConfig :=
  { name := "web", backend := "http://127.0.0.1:9001", paths := [],
    stripPrefix := false, healthCheck := hcOn, tls := noTLS }

/-- A health-check-enabled service configuration named `a`. -/
def cfgA : ServiceConfig :=
  { name := "a", backend := "http://127.0.0.1:9002", paths := [],
    stripPrefix := false, healthCheck := hcOn, tls := noTLS }

/-- A service configuration with health checks disabled. -/
def cfgPlain : ServiceConfig :=
  { name := "plain", backend := "http://127.0.0.1:9003", paths := [],
    stripPrefix := false, healthCheck := noHealth, tls := noTLS }

/-- A provisioner whose external calls all succeed. -/
def goodProv : Provisioner :=
  { startOk := true, listenTLSOk := true, listenOk := true, parseOk := true }

/-- The manager after `AddService(cfgWeb)` from startup. -/
def mgrWeb : ManagerState :=
  (AddService initialManager goodProv cfgWeb).1

/-- `mgrWeb` after `Checker.Start`: the prober task for `web` is running. -/
def mgrWebProbed : ManagerState :=
  checkerStart mgrWeb

/-- The manager after `AddService(cfgPlain)` from startup: one registered
service without health checks. -/
def mgrPlain : ManagerState :=
  (AddService initialManager goodProv cfgPlain).1

/-- `Service.SetHealthy` through a `*Service` pointer, as seen by the manager
that owns the heap. -/
def setServiceHealthy (m : ManagerState) (addr : Nat) (b : Bool) : ManagerState :=
  { m with heap := setHealthyOn m.heap addr b }

/-- Every running prober task points at a live service object with health
checks enabled. An invariant of the system: `Checker.Start` only spawns
`runHealthCheck` for enabled services, the heap only grows, and no write
changes a service's configuration. -/
def ProbersEnabled (m : ManagerState) : Prop :=
  ∀ p ∈ m.probers, ∃ svc : ServiceState, m.heap.get? p.1 = some svc ∧
    svc.config.healthCheck.enabled = true

/-- Every service object whose health check is disabled has its health flag
still `true`. -/
def DisabledHealthy (m : ManagerState) : Prop :=
  ∀ (addr : Nat) (svc : ServiceState), m.heap.get? addr = some svc →
    svc.config.healthCheck.enabled = false → svc.healthy = true

/-- The system invariant behind claim C10. -/
def Inv (m : ManagerState) : Prop :=
  ProbersEnabled m ∧ DisabledHealthy m

/-! ## Helper lemmas -/

theorem healthRun_append (t : Int) (st : Int × Bool) (l1 l2 : List Bool) :
    healthRun t st (l1 ++ l2) = healthRun t (healthRun t st l1) l2 := by
  simp [healthRun, List.foldl_append]

theorem healthRun_replicate_false (t : Int) (ht : 1 ≤ t) :
    ∀ k : Nat, healthRun t (0, true) (List.replicate k false) =
      ((k : Int), decide ((k : Int) < t)) := by
  intro k
  induction k with
  | zero =>
      simp only [List.replicate, healthRun, List.foldl, Nat.cast_zero]
      have h0 : (0 : Int) < t := by omega
      simp [h0]
  | succ k ih =>
      rw [List.replicate_succ', healthRun_append, ih]
      simp only [healthRun, List.foldl, healthTick, Bool.false_eq_true, if_false]
      by_cases hc : t ≤ (k : Int) + 1
      · have h1 : ¬ (((k : Nat) + 1 : Int) < t) := by omega
        simp only [if_pos hc]
        push_cast
        simp [h1]
      · have h1 : (((k : Nat) + 1 : Int) < t) := by omega
        have h2 : ((k : Int) < t) := by omega
        simp only [if_neg hc]
        push_cast
        simp [h1, h2]

/-! ## The claims -/

/-- C1: for a health-check-enabled service the health flag starts `true` on
creation; from the initial checker state, a run of exactly `threshold - 1`
consecutive failed probes leaves it `true`; the `threshold`-th consecutive
failed probe makes it `false`; and a single successful probe, from any checker
state and after any probe history, resets the consecutive-failure counter to 0
and stores `true`. -/
theorem healthStateMachine (t : Int) (ht : 1 ≤ t) :
    (∀ cfg : ServiceConfig, (NewService cfg).healthy = true)
    ∧ (healthRun t (0, true) (List.replicate (t - 1).toNat false)).2 = true
    ∧ (healthRun t (0, true) (List.replicate t.toNat false)).2 = false
    ∧ (∀ st : Int × Bool, healthTick t st true = (0, true))
    ∧ (∀ probes : List Bool, healthRun t (0, true) (probes ++ [true]) = (0, true)) := by
  refine ⟨fun cfg => rfl, ?_, ?_, fun st => rfl, fun probes => ?_⟩
  · rw [healthRun_replicate_false t ht]
    show decide (((t - 1).toNat : Int) < t) = true
    rw [decide_eq_true_eq]
    omega
  · rw [healthRun_replicate_false t ht]
    show decide ((t.toNat : Int) < t) = false
    rw [decide_eq_false_iff_not]
    omega
  · rw [healthRun_append]
    rfl

/-- Witness for C1 at threshold 3 (the default): instantiates every conjunct
of `healthStateMachine`. -/
theorem healthStateMachine_witness :
    (∀ cfg : ServiceConfig, (NewService cfg).healthy = true)
    ∧ (healthRun 3 (0, true) (List.replicate ((3 : Int) - 1).toNat false)).2 = true
    ∧ (healthRun 3 (0, true) (List.replicate (3 : Int).toNat false)).2 = false
    ∧ (∀ st : Int × Bool, healthTick 3 st true = (0, true))
    ∧ (∀ probes : List Bool, healthRun 3 (0, true) (probes ++ [true]) = (0, true)) :=
  healthStateMachine 3 (by decide)

/-- C2: a request to a service whose health flag is `false` is answered with
503 Service Unavailable, and the forwarding primitive is never invoked. -/
theorem healthGate503 (svc : ServiceState) (reqPath : String)
    (h : svc.healthy = false) :
    createHandler svc reqPath = Response.serviceUnavailable
    ∧ proxyCalls (createHandler svc reqPath) = 0 := by
  simp [createHandler, h, proxyCalls]

/-- Witness for C2: the concrete unhealthy service `downSvc`. -/
theorem healthGate503_witness :
    createHandler downSvc "/x" = Response.serviceUnavailable
    ∧ proxyCalls (createHandler downSvc "/x") = 0 :=
  healthGate503 downSvc "/x" rfl

theorem lookup_filter_self (l : List (String × Nat)) (name : String) :
    (l.filter (fun e => e.1 != name)).lookup name = none := by
  induction l with
  | nil => rfl
  | cons e l ih =>
      obtain ⟨k, v⟩ := e
      by_cases he : k = name
      · rw [List.filter_cons_of_neg]
        · exact ih
        · simp [he]
      · rw [List.filter_cons_of_pos]
        · have hk : (name == k) = false := by
            rw [beq_eq_false_iff_ne]
            exact fun h => he h.symm
          simp only [List.lookup, hk]
          exact ih
        · simp [he]

/-- C4: `AddService` on a name that is already registered returns the
duplicate-name error, leaves the whole manager state (registry and every
service's state) unchanged, and performs no provisioning side effect. -/
theorem addDuplicateUnchanged (m : ManagerState) (prov : Provisioner)
    (cfg : ServiceConfig) (h : (m.services.lookup cfg.name).isSome = true) :
    AddService m prov cfg = (m, some AddError.duplicateName, []) := by
  simp [AddService, h]

/-- Witness for C4: re-adding `web` to the manager that already holds it. -/
theorem addDuplicateUnchanged_witness :
    AddService mgrWeb goodProv cfgWeb = (mgrWeb, some AddError.duplicateName, []) :=
  addDuplicateUnchanged mgrWeb goodProv cfgWeb (by decide)

/-- C7: `RemoveService` of an absent name returns the not-found error and
changes nothing; and removal is not idempotent: after a successful removal, a
second `RemoveService` of the same name fails with not-found (and changes
nothing further). -/
theorem removeSemantics :
    (∀ (m : ManagerState) (name : String), m.services.lookup name = none →
      RemoveService m name = (m, some RemoveError.notFound, []))
    ∧ (∀ (m m' : ManagerState) (name : String) (fx : List Effect),
      RemoveService m name = (m', none, fx) →
      RemoveService m' name = (m', some RemoveError.notFound, [])) := by
  constructor
  · intro m name h
    simp [RemoveService, h]
  · intro m m' name fx h
    cases hl : m.services.lookup name with
    | none => simp [RemoveService, hl] at h
    | some a =>
        simp only [RemoveService, hl] at h
        have hm : m' = { m with services := m.services.filter (fun e => e.1 != name) } := by
          exact congrArg Prod.fst h.symm
        have hnone : m'.services.lookup name = none := by
          rw [hm]
          exact lookup_filter_self m.services name
        simp [RemoveService, hnone]

/-- C5 counterexample: a freshly added health-check-enabled service `a` gets
no prober task from `AddService` (the prober set is unchanged, still only the
task for `web` at address 0), and removing `web` from the registry leaves the
`web` prober task running. -/
theorem proberLifecycleCex :
    cfgA.healthCheck.enabled = true
    ∧ (AddService mgrWebProbed goodProv cfgA).2.1 = none
    ∧ GetService (AddService mgrWebProbed goodProv cfgA).1 "a" = some 1
    ∧ (AddService mgrWebProbed goodProv cfgA).1.probers = [(0, 0)]
    ∧ (RemoveService mgrWebProbed "web").2.1 = none
    ∧ GetService (RemoveService mgrWebProbed "web").1 "web" = none
    ∧ (RemoveService mgrWebProbed "web").1.probers = [(0, 0)] := by
  decide

/-- C5 amended: prober tasks are started only by `Checker.Start`, which spawns
one task per health-check-enabled service registered at that moment;
`AddService` never starts a prober and `RemoveService` never stops one (the
running prober set is invariant under both). -/
theorem proberLifecycleAmended :
    (∀ (m : ManagerState) (prov : Provisioner) (cfg : ServiceConfig),
      (AddService m prov cfg).1.probers = m.probers)
    ∧ (∀ (m : ManagerState) (name : String),
      (RemoveService m name).1.probers = m.probers)
    ∧ (∀ m : ManagerState,
      (checkerStart m).probers = m.probers ++ (enabledAddrs m).map (fun a => (a, 0))) := by
  refine ⟨fun m prov cfg => ?_, fun m name => ?_, fun m => rfl⟩
  · unfold AddService
    split <;> try rfl
    split <;> try rfl
    split <;> try rfl
    split <;> try rfl
    split <;> rfl
  · unfold RemoveService
    split <;> rfl

/-- C9 counterexample: the copy `GetAllServices` returns holds the same
`*Service` pointer (address 0) as the registry, so `SetHealthy(false)` on the
service taken from the returned copy flips the health of the registered
service itself. -/
theorem defensiveCopyCex :
    (GetAllServices mgrWeb).lookup "web" = some 0
    ∧ serviceHealthy mgrWeb "web" = some true
    ∧ serviceHealthy (setServiceHealthy mgrWeb 0 false) "web" = some false := by
  decide

theorem get?_set_same {α : Type} (l : List α) (i : Nat) (a x : α)
    (h : l.get? i = some a) : (l.set i x).get? i = some x := by
  induction l generalizing i with
  | nil => simp at h
  | cons y l ih =>
      cases i with
      | zero => rfl
      | succ j =>
          simp only [List.set, List.get?] at h ⊢
          exact ih j h

theorem get?_set_other {α : Type} (l : List α) (i j : Nat) (x : α)
    (h : i ≠ j) : (l.set i x).get? j = l.get? j := by
  induction l generalizing i j with
  | nil => rfl
  | cons y l ih =>
      cases i with
      | zero =>
          cases j with
          | zero => exact absurd rfl h
          | succ k => rfl
      | succ i =>
          cases j with
          | zero => rfl
          | succ k =>
              simp only [List.set, List.get?]
              exact ih i k (by omega)

/-- C9 amended: `GetAllServices` returns a structural copy of the registry map
(the same association of names to `*Service` pointers, as a fresh map), so the
caller's structural edits cannot touch the registry; but the `Service` values
are shared pointers: storing a health flag through a pointer obtained from the
returned copy changes the health the registry reports for that service. -/
theorem shallowCopySemantics :
    (∀ m : ManagerState, GetAllServices m = m.services)
    ∧ (∀ (m : ManagerState) (name : String) (addr : Nat) (b : Bool) (svc : ServiceState),
      (GetAllServices m).lookup name = some addr → m.heap.get? addr = some svc →
      serviceHealthy (setServiceHealthy m addr b) name = some b) := by
  refine ⟨fun m => rfl, fun m name addr b svc hl hh => ?_⟩
  have hset : setHealthyOn m.heap addr b = m.heap.set addr { svc with healthy := b } := by
    unfold setHealthyOn
    rw [hh]
  have hl' : m.services.lookup name = some addr := hl
  show (m.services.lookup name).bind
      (fun a => ((setHealthyOn m.heap addr b).get? a).map (fun s => s.healthy)) = some b
  rw [hl']
  show ((setHealthyOn m.heap addr b).get? addr).map (fun s => s.healthy) = some b
  rw [hset, get?_set_same m.heap addr svc _ hh]
  rfl

theorem trimPrefix_append (p rest : String) : trimPrefix (p ++ rest) p = rest := by
  have hdata : (p ++ rest).data = p.data ++ rest.data := String.data_append p rest
  have hpre : hasPrefix (p ++ rest) p = true := by
    unfold hasPrefix
    rw [List.isPrefixOf_iff_prefix, hdata]
    exact List.prefix_append _ _
  unfold trimPrefix
  rw [if_pos hpre, hdata, List.drop_left]

theorem matchPath_nonempty (paths : List String) (reqPath p : String)
    (h : matchPath paths reqPath = some p) : paths.length > 0 := by
  cases paths with
  | nil => exact Option.noConfusion h
  | cons q l => simp

/-- C3: for the healthy service with `paths=["/api"]` and `stripPrefix=true`,
`/api/users` is forwarded as `/users` and `/other` is answered 404 without
forwarding; a healthy service with an empty path list forwards every request
path unmodified; with a non-empty path list the prefixes are tried in
declaration order and the first match wins; and when stripping empties the
path it is normalized to `/`. -/
theorem pathRouting :
    createHandler apiSvc "/api/users" = Response.forwarded "/users"
    ∧ createHandler apiSvc "/other" = Response.notFound
    ∧ proxyCalls (createHandler apiSvc "/other") = 0
    ∧ (∀ (svc : ServiceState) (reqPath : String), svc.healthy = true →
        svc.config.paths = [] → createHandler svc reqPath = Response.forwarded reqPath)
    ∧ (∀ (l1 l2 : List String) (p reqPath : String),
        (∀ q ∈ l1, hasPrefix reqPath q = false) → hasPrefix reqPath p = true →
        matchPath (l1 ++ p :: l2) reqPath = some p)
    ∧ (∀ (svc : ServiceState) (reqPath p : String), svc.healthy = true →
        svc.config.stripPrefix = true → matchPath svc.config.paths reqPath = some p →
        trimPrefix reqPath p = "" → createHandler svc reqPath = Response.forwarded "/") := by
  refine ⟨by decide, by decide, by decide, ?_, ?_, ?_⟩
  · intro svc reqPath h1 h2
    simp [createHandler, h1, h2]
  · intro l1 l2 p reqPath hnone hp
    induction l1 with
    | nil => simp [matchPath, hp]
    | cons q l1 ih =>
        have hq : hasPrefix reqPath q = false := hnone q (by simp)
        simp only [List.cons_append, matchPath, hq, Bool.false_eq_true, if_false]
        exact ih (fun r hr => hnone r (by simp [hr]))
  · intro svc reqPath p h1 h2 hm htrim
    have hlen := matchPath_nonempty svc.config.paths reqPath p hm
    simp [createHandler, h1, hlen, hm, h2, htrim]

/-- C6: prefix stripping is a literal textual strip, not slash-boundary
aware: the service with `paths=["/ap"]` and `stripPrefix=true` forwards a
request for `/api` with the rewritten path `i`; in general stripping removes
exactly the matched prefix from the front of the path, whatever character
follows it. -/
theorem literalStrip :
    createHandler apSvc "/api" = Response.forwarded "i"
    ∧ (∀ p rest : String, trimPrefix (p ++ rest) p = rest)
    ∧ (∀ (svc : ServiceState) (p rest : String), svc.healthy = true →
        svc.config.stripPrefix = true →
        matchPath svc.config.paths (p ++ rest) = some p → rest ≠ "" →
        createHandler svc (p ++ rest) = Response.forwarded rest) := by
  refine ⟨by decide, trimPrefix_append, ?_⟩
  intro svc p rest h1 h2 hm hrest
  have hlen := matchPath_nonempty svc.config.paths (p ++ rest) p hm
  simp [createHandler, h1, hlen, hm, h2, trimPrefix_append, hrest]

theorem get?_lt_of_some {α : Type} {l : List α} {n : Nat} {a : α}
    (h : l.get? n = some a) : n < l.length := by
  by_contra hn
  rw [List.get?_eq_none.mpr (by omega)] at h
  exact Option.noConfusion h

theorem inv_initial : Inv initialManager := by
  constructor
  · intro p hp
    simp [initialManager] at hp
  · intro addr svc h
    simp [initialManager] at h

theorem inv_add (m : ManagerState) (prov : Provisioner) (cfg : ServiceConfig)
    (h : Inv m) : Inv (AddService m prov cfg).1 := by
  unfold AddService
  split_ifs with h1 h2 h3 h4 h5 <;> try exact h
  constructor
  · intro p hp
    obtain ⟨svc, hsvc, hen⟩ := h.1 p hp
    refine ⟨svc, ?_, hen⟩
    show (m.heap ++ [NewService cfg]).get? p.1 = some svc
    rw [List.get?_append (get?_lt_of_some hsvc)]
    exact hsvc
  · intro addr svc hsvc hdis
    have hsvc' : (m.heap ++ [NewService cfg]).get? addr = some svc := hsvc
    rcases Nat.lt_or_ge addr m.heap.length with hlt | hge
    · rw [List.get?_append hlt] at hsvc'
      exact h.2 addr svc hsvc' hdis
    · rw [List.get?_append_right hge] at hsvc'
      cases hsub : addr - m.heap.length with
      | zero =>
          rw [hsub] at hsvc'
          have : NewService cfg = svc := by simpa using hsvc'
          rw [← this]
          rfl
      | succ k =>
          rw [hsub] at hsvc'
          simp at hsvc'

theorem inv_remove (m : ManagerState) (name : String) (h : Inv m) :
    Inv (RemoveService m name).1 := by
  unfold RemoveService
  cases hl : m.services.lookup name with
  | none => exact h
  | some a => exact h

theorem mem_enabledAddrs (m : ManagerState) (a : Nat) (ha : a ∈ enabledAddrs m) :
    ∃ svc : ServiceState, m.heap.get? a = some svc ∧
      svc.config.healthCheck.enabled = true := by
  unfold enabledAddrs at ha
  rw [List.mem_filterMap] at ha
  obtain ⟨e, _, hfe⟩ := ha
  cases hg : m.heap.get? e.2 with
  | none => rw [hg] at hfe; simp at hfe
  | some svc =>
      rw [hg] at hfe
      by_cases hen : svc.config.healthCheck.enabled = true
      · simp only [hen, if_true] at hfe
        have hfe' : e.2 = a := by simpa using hfe
        subst hfe'
        exact ⟨svc, hg, hen⟩
      · simp [hen] at hfe

theorem inv_start (m : ManagerState) (h : Inv m) : Inv (checkerStart m) := by
  constructor
  · intro p hp
    rw [show (checkerStart m).probers =
        m.probers ++ (enabledAddrs m).map (fun a => (a, 0)) from rfl,
      List.mem_append] at hp
    cases hp with
    | inl hp => exact h.1 p hp
    | inr hp =>
        rw [List.mem_map] at hp
        obtain ⟨a, ha, rfl⟩ := hp
        exact mem_enabledAddrs m a ha
  · exact h.2

theorem inv_tick (m : ManagerState) (i : Nat) (ok : Bool) (h : Inv m) :
    Inv (proberTick m i ok) := by
  unfold proberTick
  cases hp : m.probers.get? i with
  | none => exact h
  | some p =>
      obtain ⟨addr, fc⟩ := p
      show Inv (match m.heap.get? addr with
        | none => m
        | some svc =>
            let r := healthTick svc.config.healthCheck.unhealthyThreshold
              (fc, svc.healthy) ok
            { m with heap := m.heap.set addr { svc with healthy := r.2 }
                     probers := m.probers.set i (addr, r.1) })
      cases hg : m.heap.get? addr with
      | none => exact h
      | some svc =>
          show Inv { m with
            heap := m.heap.set addr { svc with healthy :=
              (healthTick svc.config.healthCheck.unhealthyThreshold
                (fc, svc.healthy) ok).2 }
            probers := m.probers.set i (addr,
              (healthTick svc.config.healthCheck.unhealthyThreshold
                (fc, svc.healthy) ok).1) }
          have hmem : (addr, fc) ∈ m.probers := List.get?_mem hp
          obtain ⟨svc0, hsvc0, hen0⟩ := h.1 (addr, fc) hmem
          rw [hg] at hsvc0
          injection hsvc0 with hsvc0eq
          subst hsvc0eq
          constructor
          · intro q hq
            have hq' : q ∈ m.probers.set i (addr,
                (healthTick svc.config.healthCheck.unhealthyThreshold
                  (fc, svc.healthy) ok).1) := hq
            rcases List.mem_or_eq_of_mem_set hq' with hq2 | hq2
            · obtain ⟨s, hs, hen⟩ := h.1 q hq2
              by_cases ha : q.1 = addr
              · refine ⟨{ svc with healthy :=
                    (healthTick svc.config.healthCheck.unhealthyThreshold
                      (fc, svc.healthy) ok).2 }, ?_, ?_⟩
                · show (m.heap.set addr _).get? q.1 = _
                  rw [ha]
                  exact get?_set_same m.heap addr svc _ hg
                · exact hen0
              · refine ⟨s, ?_, hen⟩
                show (m.heap.set addr _).get? q.1 = some s
                rw [get?_set_other m.heap addr q.1 _ (fun hh => ha hh.symm)]
                exact hs
            · subst hq2
              exact ⟨_, get?_set_same m.heap addr svc _ hg, hen0⟩
          · intro a s hs hdis
            have hs' : (m.heap.set addr { svc with healthy :=
                (healthTick svc.config.healthCheck.unhealthyThreshold
                  (fc, svc.healthy) ok).2 }).get? a = some s := hs
            by_cases ha : a = addr
            · subst ha
              rw [get?_set_same m.heap a svc _ hg] at hs'
              injection hs' with hs'
              rw [← hs'] at hdis
              exact absurd hen0 (by simp_all)
            · rw [get?_set_other m.heap addr a _ (fun hh => ha hh.symm)] at hs'
              exact h.2 a s hs' hdis

theorem inv_step (a b : ManagerState) (hab : SysStep a b) (h : Inv a) : Inv b := by
  cases hab with
  | add prov cfg => exact inv_add a prov cfg h
  | remove name => exact inv_remove a name h
  | start => exact inv_start a h
  | tick i ok => exact inv_tick a i ok h

theorem inv_reachable (m : ManagerState) (h : Reachable m) : Inv m := by
  unfold Reachable at h
  induction h with
  | refl => exact inv_initial
  | tail _ hstep ih => exact inv_step _ _ hstep ih

theorem healthyHandler_no503 (svc : ServiceState) (reqPath : String)
    (h : svc.healthy = true) :
    createHandler svc reqPath ≠ Response.serviceUnavailable := by
  intro heq
  unfold createHandler at heq
  rw [if_neg (by simp [h])] at heq
  split at heq
  · split at heq
    · exact Response.noConfusion heq
    · split at heq
      · exact Response.noConfusion heq
      · exact Response.noConfusion heq
  · exact Response.noConfusion heq

/-- C10: in every reachable state of the system, a registered service whose
health check is disabled still has its creation-time health flag `true` (no
component ever stores `false` for it: the checker only spawns probers for
enabled services), so the dispatcher never answers one of its requests with
the health-gate 503. -/
theorem disabledServiceNeverGated (m : ManagerState) (h : Reachable m)
    (addr : Nat) (svc : ServiceState) (reqPath : String)
    (hs : m.heap.get? addr = some svc)
    (hd : svc.config.healthCheck.enabled = false) :
    svc.healthy = true ∧ createHandler svc reqPath ≠ Response.serviceUnavailable := by
  have hinv := inv_reachable m h
  have hh : svc.healthy = true := hinv.2 addr svc hs hd
  exact ⟨hh, healthyHandler_no503 svc reqPath hh⟩

/-- Witness for C10: the concrete reachable manager `mgrPlain` holding the
health-check-disabled service `plain`. -/
theorem disabledServiceNeverGated_witness :
    (NewService cfgPlain).healthy = true
    ∧ createHandler (NewService cfgPlain) "/x" ≠ Response.serviceUnavailable :=
  disabledServiceNeverGated mgrPlain
    (Relation.ReflTransGen.single (SysStep.add initialManager goodProv cfgPlain))
    0 (NewService cfgPlain) "/x" (by decide) (by decide)

theorem contains_iff_mem (l : List String) (a : String) :
    l.contains a = true ↔ a ∈ l :=
  List.elem_iff

theorem validateService_ok_iff (seen : List String) (svc : ServiceConfig) :
    (∃ s', validateService seen svc = .ok s') ↔
      (¬ serviceDefect svc ∧ svc.name ∉ seen) := by
  unfold validateService serviceDefect
  by_cases h1 : svc.name = ""
  · rw [if_pos h1]
    constructor
    · rintro ⟨s', hs'⟩; exact Except.noConfusion hs'
    · rintro ⟨hnd, -⟩; exact absurd (Or.inl h1) hnd
  · rw [if_neg h1]
    by_cases h2 : seen.contains svc.name = true
    · rw [if_pos h2]
      constructor
      · rintro ⟨s', hs'⟩; exact Except.noConfusion hs'
      · rintro ⟨-, hns⟩; exact absurd ((contains_iff_mem seen svc.name).mp h2) hns
    · rw [if_neg h2]
      by_cases h3 : svc.backend = ""
      · rw [if_pos h3]
        constructor
        · rintro ⟨s', hs'⟩; exact Except.noConfusion hs'
        · rintro ⟨hnd, -⟩; exact absurd (Or.inr (Or.inl h3)) hnd
      · rw [if_neg h3]
        by_cases h4 : (hasPrefix svc.backend "http://" ||
            hasPrefix svc.backend "https://") = true
        · rw [if_neg (not_not_intro h4)]
          by_cases h5 : svc.healthCheck.enabled = true
          · rw [if_pos h5]
            by_cases h6 : svc.healthCheck.path = ""
            · rw [if_pos h6]
              constructor
              · rintro ⟨s', hs'⟩; exact Except.noConfusion hs'
              · rintro ⟨hnd, -⟩
                exact absurd (Or.inr (Or.inr (Or.inr ⟨h5, h6⟩))) hnd
            · rw [if_neg h6]
              constructor
              · intro _
                refine ⟨?_, fun hm => h2 ((contains_iff_mem seen svc.name).mpr hm)⟩
                rintro (hA | hB | hC | hD)
                · exact h1 hA
                · exact h3 hB
                · rw [hC.1, hC.2] at h4; simp at h4
                · exact h6 hD.2
              · intro _; exact ⟨_, rfl⟩
          · rw [if_neg h5]
            constructor
            · intro _
              refine ⟨?_, fun hm => h2 ((contains_iff_mem seen svc.name).mpr hm)⟩
              rintro (hA | hB | hC | hD)
              · exact h1 hA
              · exact h3 hB
              · rw [hC.1, hC.2] at h4; simp at h4
              · exact h5 hD.1
            · intro _; exact ⟨_, rfl⟩
        · rw [if_pos h4]
          constructor
          · rintro ⟨s', hs'⟩; exact Except.noConfusion hs'
          · rintro ⟨hnd, -⟩
            simp only [Bool.or_eq_true, not_or, Bool.not_eq_true] at h4
            exact absurd (Or.inr (Or.inr (Or.inl ⟨h4.1, h4.2⟩))) hnd

theorem validateService_ok_defaulted (seen : List String) (svc svc' : ServiceConfig)
    (h : validateService seen svc = .ok svc') : defaulted svc svc' := by
  unfold validateService at h
  split_ifs at h with h1 h2 h3 h4 h5 h6 <;> try exact Except.noConfusion h
  all_goals injection h with h
  all_goals subst h
  all_goals unfold defaulted
  all_goals first
    | exact ⟨rfl, rfl, rfl, rfl, rfl, rfl, rfl, fun _ => ⟨rfl, rfl, rfl⟩,
        fun hf => absurd h5 (by simp [hf])⟩
    | exact ⟨rfl, rfl, rfl, rfl, rfl, rfl, rfl, fun ht => absurd ht h5, fun _ => rfl⟩

theorem validateServicesLoop_ok_iff (l : List ServiceConfig) :
    ∀ seen : List String,
      (∃ l', validateServicesLoop seen l = .ok l') ↔
        ((∀ s ∈ l, ¬ serviceDefect s) ∧ (l.map (fun s => s.name)).Nodup ∧
          ∀ s ∈ l, s.name ∉ seen) := by
  induction l with
  | nil => intro seen; simp [validateServicesLoop]
  | cons svc rest ih =>
      intro seen
      cases hx : validateService seen svc with
      | error e =>
          have hx' := validateService_ok_iff seen svc
          rw [hx] at hx'
          have hno : ¬ (¬ serviceDefect svc ∧ svc.name ∉ seen) := by
            rw [← hx']
            rintro ⟨s', hs'⟩
            exact Except.noConfusion hs'
          constructor
          · rintro ⟨l', hl'⟩
            simp only [validateServicesLoop, hx] at hl'
            exact Except.noConfusion hl'
          · rintro ⟨hdef, _, hseen⟩
            exact absurd ⟨hdef svc (by simp), hseen svc (by simp)⟩ hno
      | ok svc' =>
          have hdefsvc : ¬ serviceDefect svc ∧ svc.name ∉ seen :=
            (validateService_ok_iff seen svc).mp ⟨svc', hx⟩
          have hih := ih (svc.name :: seen)
          cases hr : validateServicesLoop (svc.name :: seen) rest with
          | error e =>
              rw [hr] at hih
              have hno : ¬ ((∀ s ∈ rest, ¬ serviceDefect s) ∧
                  (rest.map (fun s => s.name)).Nodup ∧
                  ∀ s ∈ rest, s.name ∉ svc.name :: seen) := by
                rw [← hih]
                rintro ⟨l', hl'⟩
                exact Except.noConfusion hl'
              constructor
              · rintro ⟨l', hl'⟩
                simp only [validateServicesLoop, hx, hr] at hl'
                exact Except.noConfusion hl'
              · rintro ⟨hdef, hnodup, hseen⟩
                exfalso
                apply hno
                rw [List.map_cons, List.nodup_cons] at hnodup
                refine ⟨fun s hs => hdef s (by simp [hs]), hnodup.2, ?_⟩
                intro s hs hmem
                rcases List.mem_cons.mp hmem with heq | hmem2
                · exact hnodup.1 (List.mem_map.mpr ⟨s, hs, heq⟩)
                · exact hseen s (by simp [hs]) hmem2
          | ok rest' =>
              rw [hr] at hih
              have htriple := hih.mp ⟨rest', rfl⟩
              constructor
              · intro _
                refine ⟨?_, ?_, ?_⟩
                · intro s hs
                  rcases List.mem_cons.mp hs with rfl | hs2
                  · exact hdefsvc.1
                  · exact htriple.1 s hs2
                · rw [List.map_cons, List.nodup_cons]
                  refine ⟨?_, htriple.2.1⟩
                  intro hmem
                  rw [List.mem_map] at hmem
                  obtain ⟨s, hs, hname⟩ := hmem
                  exact htriple.2.2 s hs (by rw [hname]; exact List.mem_cons_self _ _)
                · intro s hs
                  rcases List.mem_cons.mp hs with rfl | hs2
                  · exact hdefsvc.2
                  · exact fun hmem => htriple.2.2 s hs2 (List.mem_cons_of_mem _ hmem)
              · intro _
                exact ⟨svc' :: rest', by simp only [validateServicesLoop, hx, hr]⟩

theorem validateServicesLoop_defaults (l : List ServiceConfig) :
    ∀ (seen : List String) (l' : List ServiceConfig),
      validateServicesLoop seen l = .ok l' → List.Forall₂ defaulted l l' := by
  induction l with
  | nil =>
      intro seen l' h
      simp only [validateServicesLoop] at h
      injection h with h
      subst h
      exact List.Forall₂.nil
  | cons svc rest ih =>
      intro seen l' h
      cases hx : validateService seen svc with
      | error e =>
          simp only [validateServicesLoop, hx] at h
          exact Except.noConfusion h
      | ok svc' =>
          cases hr : validateServicesLoop (svc.name :: seen) rest with
          | error e =>
              simp only [validateServicesLoop, hx, hr] at h
              exact Except.noConfusion h
          | ok rest' =>
              simp only [validateServicesLoop, hx, hr] at h
              injection h with h
              subst h
              exact List.Forall₂.cons
                (validateService_ok_defaulted seen svc svc' hx) (ih _ _ hr)

/-- C8: the validation accepts a configuration exactly when none of the
listed defects is present (missing auth key, missing service name, duplicate
service name, missing backend URL, backend URL not starting with `http://` or
`https://`, health check enabled with an empty path), and on acceptance fills
the defaults for every unset optional field: health-check interval 30s,
timeout 5s, unhealthy threshold 3, and the management-UI and metrics ports. -/
theorem validateSpec (c : Config) :
    ((∃ c', Config.validate c = Except.ok c') ↔ ¬ configDefect c)
    ∧ (∀ c', Config.validate c = Except.ok c' →
        List.Forall₂ defaulted c.services c'.services
        ∧ c'.managementUI.port = (if c.managementUI.enabled ∧ c.managementUI.port = 0
            then 8080 else c.managementUI.port)
        ∧ c'.metrics.port = (if c.metrics.enabled ∧ c.metrics.port = 0
            then 9090 else c.metrics.port)) := by
  constructor
  · unfold Config.validate configDefect
    by_cases hk : c.authKey = ""
    · simp [hk]
    · rw [if_neg hk]
      cases hl : validateServicesLoop [] c.services with
      | error e =>
          have hiff := validateServicesLoop_ok_iff c.services []
          rw [hl] at hiff
          constructor
          · rintro ⟨c', hc'⟩
            exact Except.noConfusion hc'
          · intro hnd
            push_neg at hnd
            obtain ⟨l', hl'⟩ := hiff.mpr ⟨hnd.2.1, hnd.2.2, by simp⟩
            exact Except.noConfusion hl'
      | ok services =>
          have hiff := validateServicesLoop_ok_iff c.services []
          rw [hl] at hiff
          have htriple := hiff.mp ⟨services, rfl⟩
          constructor
          · rintro - (hk' | hsvc | hnodup)
            · exact hk hk'
            · obtain ⟨s, hs, hds⟩ := hsvc
              exact htriple.1 s hs hds
            · exact hnodup htriple.2.1
          · intro _
            exact ⟨_, rfl⟩
  · intro c' hc'
    unfold Config.validate at hc'
    by_cases hk : c.authKey = ""
    · rw [if_pos hk] at hc'
      exact Except.noConfusion hc'
    · rw [if_neg hk] at hc'
      cases hl : validateServicesLoop [] c.services with
      | error e =>
          rw [hl] at hc'
          exact Except.noConfusion hc'
      | ok services =>
          rw [hl] at hc'
          injection hc' with hc'
          subst hc'
          exact ⟨validateServicesLoop_defaults c.services [] services hl, rfl, rfl⟩

end TsnetProxy
